import Mathlib

/-!
Verification of the lenny market-synchronization and trade-route code.

This file shallowly embeds the relevant parts of `backend/worker.py`
(`_normalize_etag_for_request`, `fetch_market_orders`, `fetch_region_history`)
and `backend/mcp_handlers/tools.py` (`find_trade_routes`) as executable Lean
definitions, and proves or refutes the specification claims about them.

Conventions of the embedding:
* timestamps and dates are natural numbers (a later instant is a larger number);
* decimal prices (stored by the code as exact-precision text and compared
  numerically) are modelled as exact rationals;
* SQL tables are lists of row structures; an `ON CONFLICT` upsert updates the
  first row with the conflicting key (the key is unique in the real table)
  and otherwise appends;
* fallible steps return `Option`/`Except`.
-/

/-! ## ETag normalization (`worker.py`, `_normalize_etag_for_request`) -/

/-- Whitespace characters removed by Python `str.strip()` (ASCII range:
space, tab, LF, VT, FF, CR). Validator tokens are ASCII. -/
def isWs (c : Char) : Bool :=
  c.toNat == 32 || c.toNat == 9 || c.toNat == 10 || c.toNat == 11 ||
    c.toNat == 12 || c.toNat == 13

/-- Python `str.strip()` on a list of characters. -/
def pyStrip (s : List Char) : List Char :=
  ((s.dropWhile isWs).reverse.dropWhile isWs).reverse

/-- The double-quote character. -/
def dquote : Char := Char.ofNat 34

/-- Uppercase W. -/
def chW : Char := Char.ofNat 87

/-- Lowercase w. -/
def chw : Char := Char.ofNat 119

/-- Forward slash. -/
def chSlash : Char := Char.ofNat 47

/-- The weak-prefix test and removal of `_normalize_etag_for_request`:
`if e.startswith("W/") or e.startswith("w/"): weak = True; e = e[2:].strip()`. -/
def stripWeak (e : List Char) : Bool × List Char :=
  match e with
  | c1 :: c2 :: rest =>
      if (c1 == chW || c1 == chw) && c2 == chSlash then (true, pyStrip rest)
      else (false, e)
  | _ => (false, e)

/-- The quote-stripping step of `_normalize_etag_for_request`:
`if e.startswith(QUOTE) and e.endswith(QUOTE) and len(e) >= 2: e = e[1:-1]`. -/
def stripQuotes (e : List Char) : List Char :=
  if e.head? == some dquote && e.getLast? == some dquote && decide (2 ≤ e.length) then
    (e.drop 1).dropLast
  else e

/-- Embedding of `worker.py` `_normalize_etag_for_request`: `None` for a falsy
(empty) input, else strip whitespace, detect and remove a weak prefix,
strip one pair of surrounding quotes, re-quote and re-apply `W/`. -/
def normalize_etag_for_request (etag : List Char) : Option (List Char) :=
  if etag.isEmpty then none
  else
    let e0 := pyStrip etag
    let we := stripWeak e0
    let e2 := stripQuotes we.2
    let quoted := dquote :: (e2 ++ [dquote])
    some (if we.1 then chW :: chSlash :: quoted else quoted)

/-- A stored validator of the shape the spec describes: an optional weak
prefix (uppercase `W/` or lowercase `w/`), around an optionally
double-quoted core token. -/
def mkEtag (weak lower quoted : Bool) (core : List Char) : List Char :=
  (if weak then [if lower then chw else chW, chSlash] else []) ++
    (if quoted then dquote :: (core ++ [dquote]) else core)

/-- The normalized form: the core wrapped in exactly one pair of double
quotes, preceded by `W/` when the stored token was weak. -/
def mkNormalized (weak : Bool) (core : List Char) : List Char :=
  (if weak then [chW, chSlash] else []) ++ (dquote :: (core ++ [dquote]))

theorem isWs_dquote : isWs dquote = false := by decide

theorem isWs_chW : isWs chW = false := by decide

theorem isWs_chw : isWs chw = false := by decide

theorem isWs_chSlash : isWs chSlash = false := by decide

theorem dquote_not_weakmark : (dquote == chW || dquote == chw) = false := by decide

theorem chW_weakmark : (chW == chW || chW == chw) = true := by decide

theorem chw_weakmark : (chw == chW || chw == chw) = true := by decide

theorem dropWhile_eq_self_of_head (p : Char → Bool) (l : List Char)
    (h : l.head?.all (fun c => !p c) = true) : l.dropWhile p = l := by
  cases l with
  | nil => rfl
  | cons a as =>
      simp only [List.head?_cons, Option.all_some, Bool.not_eq_true'] at h
      simp [List.dropWhile_cons, h]

theorem pyStrip_eq_self (l : List Char)
    (h1 : l.head?.all (fun c => !isWs c) = true)
    (h2 : l.getLast?.all (fun c => !isWs c) = true) : pyStrip l = l := by
  unfold pyStrip
  rw [dropWhile_eq_self_of_head _ _ h1]
  rw [dropWhile_eq_self_of_head _ _ (by rwa [List.head?_reverse])]
  exact List.reverse_reverse l

theorem stripWeak_of_fst_false (e : List Char) (h : (stripWeak e).1 = false) :
    stripWeak e = (false, e) := by
  match e with
  | [] => rfl
  | [c] => rfl
  | c1 :: c2 :: rest =>
      simp only [stripWeak] at h ⊢
      split at h
      · simp at h
      · simp_all

/-- The last character of a quote-terminated token. -/
theorem getLast?_q (l : List Char) :
    (l ++ [dquote]).getLast? = some dquote := List.getLast?_concat _

theorem pyStrip_quoted (core : List Char) :
    pyStrip (dquote :: (core ++ [dquote])) = dquote :: (core ++ [dquote]) := by
  apply pyStrip_eq_self
  · simp [isWs_dquote]
  · rw [show dquote :: (core ++ [dquote]) = (dquote :: core) ++ [dquote] from rfl,
      getLast?_q]
    simp [isWs_dquote]

theorem stripQuotes_quoted (core : List Char) :
    stripQuotes (dquote :: (core ++ [dquote])) = core := by
  unfold stripQuotes
  rw [show dquote :: (core ++ [dquote]) = (dquote :: core) ++ [dquote] from rfl,
    getLast?_q]
  have hlen : 2 ≤ ((dquote :: core) ++ [dquote]).length := by
    simp
  rw [if_pos (by simp [hlen])]
  simp [List.dropLast_concat]

theorem stripWeak_quoted (core : List Char) :
    stripWeak (dquote :: (core ++ [dquote])) = (false, dquote :: (core ++ [dquote])) := by
  cases core with
  | nil => decide
  | cons a as =>
      simp only [List.cons_append, stripWeak, dquote_not_weakmark, Bool.false_and,
        Bool.false_eq_true, if_false]

theorem stripWeak_weak (wc : Char) (hwc : wc = chW ∨ wc = chw) (rest : List Char) :
    stripWeak (wc :: chSlash :: rest) = (true, pyStrip rest) := by
  rcases hwc with rfl | rfl <;> simp [stripWeak]

/-- Unfolding of the normalizer on a (necessarily truthy) non-empty token. -/
theorem normalize_eval (c : Char) (rest : List Char) :
    normalize_etag_for_request (c :: rest) =
      some (if (stripWeak (pyStrip (c :: rest))).1 then
              chW :: chSlash ::
                (dquote :: (stripQuotes (stripWeak (pyStrip (c :: rest))).2 ++ [dquote]))
            else dquote :: (stripQuotes (stripWeak (pyStrip (c :: rest))).2 ++ [dquote])) :=
  rfl

/-- Normalizing an unprefixed quote-surrounded token rewraps its core: such a
token is already in normal form. -/
theorem normalize_L1 (core : List Char) :
    normalize_etag_for_request (dquote :: (core ++ [dquote])) =
      some (dquote :: (core ++ [dquote])) := by
  rw [normalize_eval, pyStrip_quoted, stripWeak_quoted]
  simp only [Bool.false_eq_true, if_false, stripQuotes_quoted]

/-- Normalizing a weak-prefixed quote-surrounded token rewraps its core under
an uppercase `W/`. -/
theorem normalize_L2 (wc : Char) (hwc : wc = chW ∨ wc = chw) (core : List Char) :
    normalize_etag_for_request (wc :: chSlash :: (dquote :: (core ++ [dquote]))) =
      some (chW :: chSlash :: (dquote :: (core ++ [dquote]))) := by
  rw [normalize_eval]
  rw [pyStrip_eq_self]
  · rw [stripWeak_weak wc hwc, pyStrip_quoted]
    simp only [if_true, stripQuotes_quoted]
  · rcases hwc with rfl | rfl <;> simp [isWs_chW, isWs_chw]
  · rw [show wc :: chSlash :: (dquote :: (core ++ [dquote]))
        = (wc :: chSlash :: dquote :: core) ++ [dquote] from rfl, getLast?_q]
    simp [isWs_dquote]

/-- Normalizing an unprefixed unquoted token (no surrounding whitespace, not
itself weak-looking, not itself quote-surrounded) wraps it in one pair of
quotes. -/
theorem normalize_L3 (a : Char) (as : List Char)
    (h1 : (a :: as).head?.all (fun c => !isWs c) = true)
    (h2 : (a :: as).getLast?.all (fun c => !isWs c) = true)
    (hsw : (stripWeak (a :: as)).1 = false)
    (hq : stripQuotes (a :: as) = a :: as) :
    normalize_etag_for_request (a :: as) = some (dquote :: ((a :: as) ++ [dquote])) := by
  rw [normalize_eval, pyStrip_eq_self _ h1 h2, stripWeak_of_fst_false _ hsw]
  simp only [Bool.false_eq_true, if_false, hq]

/-- Normalizing a weak-prefixed unquoted token wraps the part after the
marker in quotes and re-applies `W/`. -/
theorem normalize_L4 (wc : Char) (hwc : wc = chW ∨ wc = chw) (core : List Char)
    (h1 : core.head?.all (fun c => !isWs c) = true)
    (h2 : core.getLast?.all (fun c => !isWs c) = true)
    (hq : stripQuotes core = core) :
    normalize_etag_for_request (wc :: chSlash :: core) =
      some (chW :: chSlash :: (dquote :: (core ++ [dquote]))) := by
  rw [normalize_eval]
  rw [pyStrip_eq_self]
  · rw [stripWeak_weak wc hwc, pyStrip_eq_self _ h1 h2]
    simp only [if_true, hq]
  · rcases hwc with rfl | rfl <;> simp [isWs_chW, isWs_chw]
  · cases core with
    | nil =>
        rcases hwc with rfl | rfl <;> simp [isWs_chSlash]
    | cons b bs =>
        rw [List.getLast?_cons_cons, List.getLast?_cons_cons]
        exact h2

/-- C8: a non-empty stored validator that optionally carries a weak prefix
(`W/` or `w/`) and is optionally surrounded by one pair of double quotes is
normalized by `_normalize_etag_for_request` to the core token wrapped in
exactly one pair of double quotes, with `W/` re-applied in front when a weak
prefix was present; and the function is idempotent, so an already-normalized
token round-trips to byte-identical header content. The core is assumed to
carry no surrounding whitespace and, when unquoted, not to be itself of the
weak-prefixed or quote-surrounded shape (otherwise the claimed shape parse
would be ambiguous). -/
theorem etag_normalization_correct :
    (∀ (weak lower quoted : Bool) (core : List Char),
        core.head?.all (fun c => !isWs c) = true →
        core.getLast?.all (fun c => !isWs c) = true →
        (weak = false → quoted = false → (stripWeak core).1 = false) →
        (quoted = false → stripQuotes core = core) →
        mkEtag weak lower quoted core ≠ [] →
        normalize_etag_for_request (mkEtag weak lower quoted core) =
          some (mkNormalized weak core)) ∧
    (∀ s t : List Char, normalize_etag_for_request s = some t →
        normalize_etag_for_request t = some t) := by
  constructor
  · intro weak lower quoted core h1 h2 hw hq hne
    cases weak with
    | false =>
        cases quoted with
        | false =>
            have hmk : mkEtag false lower false core = core := by simp [mkEtag]
            rw [hmk]
            cases core with
            | nil => exact absurd (by simp [mkEtag]) hne
            | cons a as =>
                rw [normalize_L3 a as h1 h2 (hw rfl rfl) (hq rfl)]
                simp [mkNormalized]
        | true =>
            have hmk : mkEtag false lower true core = dquote :: (core ++ [dquote]) := by
              simp [mkEtag]
            rw [hmk, normalize_L1]
            simp [mkNormalized]
    | true =>
        cases quoted with
        | false =>
            have hmk : mkEtag true lower false core
                = (if lower then chw else chW) :: chSlash :: core := by
              cases lower <;> simp [mkEtag]
            rw [hmk, normalize_L4 _ (by cases lower <;> simp) core h1 h2 (hq rfl)]
            simp [mkNormalized]
        | true =>
            have hmk : mkEtag true lower true core
                = (if lower then chw else chW) :: chSlash :: (dquote :: (core ++ [dquote])) := by
              cases lower <;> simp [mkEtag]
            rw [hmk, normalize_L2 _ (by cases lower <;> simp) core]
            simp [mkNormalized]
  · intro s t h
    cases s with
    | nil => exact absurd h (by simp [normalize_etag_for_request])
    | cons c rest =>
        rw [normalize_eval] at h
        have ht := Option.some.inj h
        cases hb : (stripWeak (pyStrip (c :: rest))).1 with
        | false =>
            rw [hb] at ht
            simp only [Bool.false_eq_true, if_false] at ht
            rw [← ht, normalize_L1]
        | true =>
            rw [hb] at ht
            simp only [if_true] at ht
            rw [← ht, normalize_L2 chW (Or.inl rfl)]

/-- Witness for C8, at the concrete stored token `w/"a"`: it normalizes to
`W/"a"`, which is a fixed point of the normalizer. -/
theorem etag_normalization_witness :
    normalize_etag_for_request (mkEtag true true true [Char.ofNat 97]) =
        some (mkNormalized true [Char.ofNat 97]) ∧
    normalize_etag_for_request (mkNormalized true [Char.ofNat 97]) =
        some (mkNormalized true [Char.ofNat 97]) := by
  have h1 := etag_normalization_correct.1 true true true [Char.ofNat 97]
    (by decide) (by decide)
    (by intro hcon _; exact absurd hcon (by decide))
    (by intro hcon; exact absurd hcon (by decide))
    (by decide)
  refine ⟨h1, ?_⟩
  exact etag_normalization_correct.2 _ _ h1

/-! ## Market-order differential sync (`worker.py`, `fetch_market_orders`)

State: the `market_orders`, `region_etags` and `region_fetch_status` tables.
Input: the region, the optional `type_id` filter, the fetch start time, the
outcome of the page-1 request, the outcomes of the requests for pages
`2 .. X-Pages` (in order), and whether an unhandled exception interrupts the
work phase.  All writes between the initial committed fetch-status upsert and
the final commit happen in one transaction, so an unhandled exception rolls
the orders/etags/status work back to the state right after the initial status
write, after which the handler commits a `success = false` status upsert. -/

/-- One order record as served by a 200 feed page. -/
structure FeedOrder where
  order_id : Nat
  type_id : Nat
  price : Rat
  volume_remain : Int
  is_buy_order : Bool
  issued : Nat
  duration : Int
  min_volume : Int
  range : String
  location_id : Nat
  deriving DecidableEq, Repr

/-- One row of the `market_orders` table. -/
structure OrderRow where
  order_id : Nat
  type_id : Nat
  region_id : Nat
  price : Rat
  volume_remain : Int
  is_buy_order : Bool
  issued : Nat
  duration : Int
  min_volume : Int
  range : String
  location_id : Nat
  updated_at : Nat
  deriving DecidableEq, Repr

/-- One row of the `region_fetch_status` table. -/
structure FetchStatusRow where
  region_id : Nat
  last_fetch_started : Option Nat
  last_fetch_completed : Option Nat
  last_fetch_success : Bool
  orders_fetched : Nat
  deriving DecidableEq, Repr

/-- One row of the `region_etags` table (`last_updated` is omitted: nothing
reads it). -/
structure EtagRow where
  region_id : Nat
  page : Nat
  etag : String
  deriving DecidableEq, Repr

/-- The durable state owned by the sync engine. -/
structure Db where
  orders : List OrderRow
  etags : List EtagRow
  status : List FetchStatusRow
  deriving DecidableEq, Repr

/-- Outcome of one page request: 304, 200 with rows and an optional fresh
ETag header, or another HTTP status. -/
inductive PageResult where
  | unchanged
  | updated (rows : List FeedOrder) (etag : Option String)
  | failed (code : Nat)
  deriving DecidableEq, Repr

/-- Result value of one run of the task. -/
inductive RunResult where
  | httpError (code : Nat)
  | exceptionFailed
  | success (ordersCount : Nat)
  deriving DecidableEq, Repr

/-- The four accumulators of the fetch loop: `orders_to_process`,
`etags_to_update`, `any_page_changed`, `any_page_unchanged`. -/
structure Collected where
  orders : List FeedOrder
  etags : List (Nat × String)
  anyChanged : Bool
  anyUnchanged : Bool
  deriving DecidableEq, Repr

/-- Handling of one page outcome in the fetch loop (page-1 hard failure is
handled separately; later-page failures are only logged). -/
def collectStep (acc : Collected) (pageNo : Nat) (pr : PageResult) : Collected :=
  match pr with
  | .unchanged => { acc with anyUnchanged := true }
  | .updated rows et =>
      { acc with
        anyChanged := true
        orders := acc.orders ++ rows
        etags := acc.etags ++ (match et with | some e => [(pageNo, e)] | none => []) }
  | .failed _ => acc

/-- The whole fetch loop: page 1, then pages `2 .. X-Pages` in order. -/
def collectRun (page1 : PageResult) (later : List PageResult) : Collected :=
  (later.enum.foldl (fun acc p => collectStep acc (p.1 + 2) p.2)
    (collectStep ⟨[], [], false, false⟩ 1 page1))

/-- `ON CONFLICT (order_id) DO UPDATE`: only price, remaining volume, issue
time and the watermark are overwritten. -/
def applyConflictUpdate (r : OrderRow) (o : FeedOrder) (ft : Nat) : OrderRow :=
  { r with price := o.price, volume_remain := o.volume_remain,
           issued := o.issued, updated_at := ft }

/-- A freshly inserted order row, watermarked with the fetch start time. -/
def newOrderRow (rid ft : Nat) (o : FeedOrder) : OrderRow :=
  { order_id := o.order_id, type_id := o.type_id, region_id := rid,
    price := o.price, volume_remain := o.volume_remain,
    is_buy_order := o.is_buy_order, issued := o.issued, duration := o.duration,
    min_volume := o.min_volume, range := o.range, location_id := o.location_id,
    updated_at := ft }

/-- Upsert of a single fetched order into `market_orders` (`order_id` is the
primary key, so at most one row conflicts). -/
def upsertOne (rid ft : Nat) (tbl : List OrderRow) (o : FeedOrder) : List OrderRow :=
  match tbl with
  | [] => [newOrderRow rid ft o]
  | r :: rest =>
      if r.order_id == o.order_id then applyConflictUpdate r o ft :: rest
      else r :: upsertOne rid ft rest o

/-- The bulk upsert from the temporary table, row by row. -/
def bulkUpsert (rid ft : Nat) (tbl : List OrderRow) (os : List FeedOrder) : List OrderRow :=
  os.foldl (upsertOne rid ft) tbl

/-- The CRITICAL-FIX bump: stamp every stored order of the region with the
fetch start time. -/
def bumpRegion (tbl : List OrderRow) (rid ft : Nat) : List OrderRow :=
  tbl.map (fun r => if r.region_id == rid then { r with updated_at := ft } else r)

/-- Deletion of stale rows: region rows whose watermark is still older than
the fetch start time. -/
def deleteStale (tbl : List OrderRow) (rid ft : Nat) : List OrderRow :=
  tbl.filter (fun r => !(r.region_id == rid && decide (r.updated_at < ft)))

/-- Upsert of one fresh validator into `region_etags`. -/
def upsertEtag (ets : List EtagRow) (rid page : Nat) (e : String) : List EtagRow :=
  match ets with
  | [] => [{ region_id := rid, page := page, etag := e }]
  | r :: rest =>
      if r.region_id == rid && r.page == page then { r with etag := e } :: rest
      else r :: upsertEtag rest rid page e

/-- Write-back of all fresh validators collected during the run. -/
def writeEtags (ets : List EtagRow) (rid : Nat) (l : List (Nat × String)) : List EtagRow :=
  l.foldl (fun acc pe => upsertEtag acc rid pe.1 pe.2) ets

/-- The initial status upsert: started now, optimistically unsuccessful; a
fresh row gets `orders_fetched = 0` and no completion time, an existing row
keeps its completion fields. -/
def statusStarted (st : List FetchStatusRow) (rid ft : Nat) : List FetchStatusRow :=
  match st with
  | [] => [{ region_id := rid, last_fetch_started := some ft,
             last_fetch_completed := none, last_fetch_success := false,
             orders_fetched := 0 }]
  | s :: rest =>
      if s.region_id == rid then
        { s with last_fetch_started := some ft, last_fetch_success := false } :: rest
      else s :: statusStarted rest rid ft

/-- The failure status upsert (`last_fetch_success = false` only). -/
def statusFailed (st : List FetchStatusRow) (rid : Nat) : List FetchStatusRow :=
  match st with
  | [] => [{ region_id := rid, last_fetch_started := none,
             last_fetch_completed := none, last_fetch_success := false,
             orders_fetched := 0 }]
  | s :: rest =>
      if s.region_id == rid then { s with last_fetch_success := false } :: rest
      else s :: statusFailed rest rid

/-- The success status upsert: completion time = fetch start time. -/
def statusCompleted (st : List FetchStatusRow) (rid ft n : Nat) : List FetchStatusRow :=
  match st with
  | [] => [{ region_id := rid, last_fetch_started := none,
             last_fetch_completed := some ft, last_fetch_success := true,
             orders_fetched := n }]
  | s :: rest =>
      if s.region_id == rid then
        { s with last_fetch_completed := some ft, last_fetch_success := true,
                 orders_fetched := n } :: rest
      else s :: statusCompleted rest rid ft n

/-- `db.query(RegionFetchStatus.last_fetch_completed).filter_by(...).scalar()`. -/
def lastFetchCompleted (st : List FetchStatusRow) (rid : Nat) : Option Nat :=
  match st.find? (fun s => s.region_id == rid) with
  | some s => s.last_fetch_completed
  | none => none

/-- The recorded success flag of a region (`none`: no row). -/
def lastFetchSuccess (st : List FetchStatusRow) (rid : Nat) : Option Bool :=
  (st.find? (fun s => s.region_id == rid)).map (fun s => s.last_fetch_success)

/-- The straight-line work phase of `fetch_market_orders`, from after the
page fetches to the final commit: bulk-upsert the collected rows; when at
least one page changed, the run covers all types and the region has a
recorded completion, bump all watermarks if any page was unchanged and then
delete rows with stale watermarks; write fresh validators and the completed
status. -/
def syncWork (db1 : Db) (rid : Nat) (tid : Option Nat) (ft : Nat) (c : Collected) : Db :=
  let orders1 := if c.orders.isEmpty then db1.orders else bulkUpsert rid ft db1.orders c.orders
  let orders2 :=
    if c.anyChanged && tid.isNone then
      if (lastFetchCompleted db1.status rid).isSome then
        deleteStale (if c.anyUnchanged then bumpRegion orders1 rid ft else orders1) rid ft
      else orders1
    else orders1
  { orders := orders2,
    etags := writeEtags db1.etags rid c.etags,
    status := statusCompleted db1.status rid ft c.orders.length }

/-- Embedding of `worker.py` `fetch_market_orders`.  Control flow of the
source: commit the started-status upsert; fetch page 1 (a hard failure
commits a failed status and returns); fetch the remaining pages; run the
work phase (`syncWork`); commit.  `exc = true` injects an unhandled
exception into the work phase: the transaction rolls back to the state right
after the initial commit and a failed status is committed. -/
def fetch_market_orders (db : Db) (rid : Nat) (tid : Option Nat) (ft : Nat)
    (page1 : PageResult) (later : List PageResult) (exc : Bool) : Db × RunResult :=
  let db1 : Db := { db with status := statusStarted db.status rid ft }
  match page1 with
  | .failed code => ({ db1 with status := statusFailed db1.status rid }, .httpError code)
  | _ =>
    if exc then ({ db1 with status := statusFailed db1.status rid }, .exceptionFailed)
    else
      (syncWork db1 rid tid ft (collectRun page1 later),
       .success (collectRun page1 later).orders.length)

/-! ### Lemmas about the sync primitives -/

theorem upsertOne_mem (rid ft : Nat) (tbl : List OrderRow) (o : FeedOrder)
    (r : OrderRow) (hr : r ∈ upsertOne rid ft tbl o) :
    r ∈ tbl ∨ r.order_id = o.order_id := by
  induction tbl with
  | nil =>
      simp only [upsertOne, List.mem_singleton] at hr
      subst hr
      exact Or.inr rfl
  | cons a as ih =>
      simp only [upsertOne] at hr
      by_cases hb : (a.order_id == o.order_id) = true
      · rw [if_pos hb] at hr
        rcases List.mem_cons.mp hr with h | h
        · subst h
          exact Or.inr (by simpa using hb)
        · exact Or.inl (List.mem_cons_of_mem _ h)
      · rw [if_neg hb] at hr
        rcases List.mem_cons.mp hr with h | h
        · exact Or.inl (h ▸ List.mem_cons_self _ _)
        · rcases ih h with h2 | h2
          · exact Or.inl (List.mem_cons_of_mem _ h2)
          · exact Or.inr h2

theorem upsertOne_mem_id (rid ft : Nat) (tbl : List OrderRow) (o : FeedOrder) (oid : Nat)
    (h : ∃ r ∈ tbl, r.order_id = oid) :
    ∃ r ∈ upsertOne rid ft tbl o, r.order_id = oid := by
  induction tbl with
  | nil => rcases h with ⟨r, hr, _⟩; cases hr
  | cons a as ih =>
      rcases h with ⟨r, hr, hid⟩
      simp only [upsertOne]
      by_cases hb : (a.order_id == o.order_id) = true
      · rw [if_pos hb]
        rcases List.mem_cons.mp hr with h1 | h1
        · subst h1
          exact ⟨applyConflictUpdate r o ft, List.mem_cons_self _ _, hid⟩
        · exact ⟨r, List.mem_cons_of_mem _ h1, hid⟩
      · rw [if_neg hb]
        rcases List.mem_cons.mp hr with h1 | h1
        · subst h1
          exact ⟨r, List.mem_cons_self _ _, hid⟩
        · rcases ih ⟨r, h1, hid⟩ with ⟨r2, hr2, hid2⟩
          exact ⟨r2, List.mem_cons_of_mem _ hr2, hid2⟩

theorem upsertOne_keeps_fresh (rid ft : Nat) (tbl : List OrderRow) (o : FeedOrder) (oid : Nat)
    (h : ∃ r ∈ tbl, r.order_id = oid ∧ r.updated_at = ft) :
    ∃ r ∈ upsertOne rid ft tbl o, r.order_id = oid ∧ r.updated_at = ft := by
  induction tbl with
  | nil => rcases h with ⟨r, hr, _⟩; cases hr
  | cons a as ih =>
      rcases h with ⟨r, hr, hid, hu⟩
      simp only [upsertOne]
      by_cases hb : (a.order_id == o.order_id) = true
      · rw [if_pos hb]
        rcases List.mem_cons.mp hr with h1 | h1
        · subst h1
          exact ⟨applyConflictUpdate r o ft, List.mem_cons_self _ _, hid, rfl⟩
        · exact ⟨r, List.mem_cons_of_mem _ h1, hid, hu⟩
      · rw [if_neg hb]
        rcases List.mem_cons.mp hr with h1 | h1
        · subst h1
          exact ⟨r, List.mem_cons_self _ _, hid, hu⟩
        · rcases ih ⟨r, h1, hid, hu⟩ with ⟨r2, hr2, hid2, hu2⟩
          exact ⟨r2, List.mem_cons_of_mem _ hr2, hid2, hu2⟩

theorem upsertOne_self (rid ft : Nat) (tbl : List OrderRow) (o : FeedOrder) :
    ∃ r ∈ upsertOne rid ft tbl o, r.order_id = o.order_id ∧ r.updated_at = ft := by
  induction tbl with
  | nil => exact ⟨newOrderRow rid ft o, List.mem_singleton.mpr rfl, rfl, rfl⟩
  | cons a as ih =>
      simp only [upsertOne]
      by_cases hb : (a.order_id == o.order_id) = true
      · rw [if_pos hb]
        exact ⟨applyConflictUpdate a o ft, List.mem_cons_self _ _, by simpa using hb, rfl⟩
      · rw [if_neg hb]
        rcases ih with ⟨r, hr, h1, h2⟩
        exact ⟨r, List.mem_cons_of_mem _ hr, h1, h2⟩

theorem bulkUpsert_mem (rid ft : Nat) (os : List FeedOrder) (tbl : List OrderRow)
    (r : OrderRow) (hr : r ∈ bulkUpsert rid ft tbl os) :
    r ∈ tbl ∨ ∃ o ∈ os, r.order_id = o.order_id := by
  induction os generalizing tbl with
  | nil => exact Or.inl hr
  | cons o os ih =>
      rcases ih (upsertOne rid ft tbl o) hr with h | h
      · rcases upsertOne_mem rid ft tbl o r h with h2 | h2
        · exact Or.inl h2
        · exact Or.inr ⟨o, List.mem_cons_self _ _, h2⟩
      · rcases h with ⟨o2, ho2, h2⟩
        exact Or.inr ⟨o2, List.mem_cons_of_mem _ ho2, h2⟩

theorem bulkUpsert_mem_id (rid ft : Nat) (os : List FeedOrder) (tbl : List OrderRow) (oid : Nat)
    (h : ∃ r ∈ tbl, r.order_id = oid) :
    ∃ r ∈ bulkUpsert rid ft tbl os, r.order_id = oid := by
  induction os generalizing tbl with
  | nil => exact h
  | cons o os ih => exact ih _ (upsertOne_mem_id rid ft tbl o oid h)

theorem bulkUpsert_keeps_fresh (rid ft : Nat) (os : List FeedOrder) (tbl : List OrderRow)
    (oid : Nat) (h : ∃ r ∈ tbl, r.order_id = oid ∧ r.updated_at = ft) :
    ∃ r ∈ bulkUpsert rid ft tbl os, r.order_id = oid ∧ r.updated_at = ft := by
  induction os generalizing tbl with
  | nil => exact h
  | cons o os ih => exact ih _ (upsertOne_keeps_fresh rid ft tbl o oid h)

theorem bulkUpsert_fresh_of_mem (rid ft : Nat) (os : List FeedOrder) (tbl : List OrderRow)
    (o : FeedOrder) (ho : o ∈ os) :
    ∃ r ∈ bulkUpsert rid ft tbl os, r.order_id = o.order_id ∧ r.updated_at = ft := by
  induction os generalizing tbl with
  | nil => cases ho
  | cons o2 os ih =>
      rcases List.mem_cons.mp ho with rfl | h
      · exact bulkUpsert_keeps_fresh rid ft os (upsertOne rid ft tbl o) o.order_id
          (upsertOne_self rid ft tbl o)
      · exact ih (upsertOne rid ft tbl o2) h

theorem bumpRegion_keeps_fresh (tbl : List OrderRow) (rid ft oid : Nat)
    (h : ∃ r ∈ tbl, r.order_id = oid ∧ r.updated_at = ft) :
    ∃ r ∈ bumpRegion tbl rid ft, r.order_id = oid ∧ r.updated_at = ft := by
  rcases h with ⟨r, hr, h1, h2⟩
  by_cases hb : (r.region_id == rid) = true
  · refine ⟨{ r with updated_at := ft }, ?_, h1, rfl⟩
    have heq : (if (r.region_id == rid) = true then { r with updated_at := ft } else r)
        = { r with updated_at := ft } := if_pos hb
    exact heq ▸ List.mem_map_of_mem _ hr
  · refine ⟨r, ?_, h1, h2⟩
    have heq : (if (r.region_id == rid) = true then { r with updated_at := ft } else r) = r :=
      if_neg hb
    exact heq ▸ List.mem_map_of_mem _ hr

theorem bumpRegion_mem_id (tbl : List OrderRow) (rid ft oid : Nat)
    (h : ∃ r ∈ tbl, r.order_id = oid) :
    ∃ r ∈ bumpRegion tbl rid ft, r.order_id = oid := by
  rcases h with ⟨r, hr, h1⟩
  by_cases hb : (r.region_id == rid) = true
  · refine ⟨{ r with updated_at := ft }, ?_, h1⟩
    have heq : (if (r.region_id == rid) = true then { r with updated_at := ft } else r)
        = { r with updated_at := ft } := if_pos hb
    exact heq ▸ List.mem_map_of_mem _ hr
  · refine ⟨r, ?_, h1⟩
    have heq : (if (r.region_id == rid) = true then { r with updated_at := ft } else r) = r :=
      if_neg hb
    exact heq ▸ List.mem_map_of_mem _ hr

theorem deleteStale_keeps_fresh (tbl : List OrderRow) (rid ft oid : Nat)
    (h : ∃ r ∈ tbl, r.order_id = oid ∧ r.updated_at = ft) :
    ∃ r ∈ deleteStale tbl rid ft, r.order_id = oid ∧ r.updated_at = ft := by
  rcases h with ⟨r, hr, h1, h2⟩
  refine ⟨r, List.mem_filter.mpr ⟨hr, ?_⟩, h1, h2⟩
  simp [h2, Nat.lt_irrefl]

theorem deleteStale_bump (tbl : List OrderRow) (rid ft : Nat) :
    deleteStale (bumpRegion tbl rid ft) rid ft = bumpRegion tbl rid ft := by
  apply List.filter_eq_self.mpr
  intro r hr
  rcases List.mem_map.mp hr with ⟨r0, _, rfl⟩
  by_cases hb : (r0.region_id == rid) = true
  · rw [if_pos hb]
    simp [Nat.lt_irrefl]
  · rw [if_neg hb]
    simp [hb]

theorem lastFetchCompleted_cons_pos (s : FetchStatusRow) (tail : List FetchStatusRow)
    (rid : Nat) (hb : (s.region_id == rid) = true) :
    lastFetchCompleted (s :: tail) rid = s.last_fetch_completed := by
  unfold lastFetchCompleted
  simp only [List.find?, hb]

theorem lastFetchCompleted_cons_neg (s : FetchStatusRow) (tail : List FetchStatusRow)
    (rid : Nat) (hb : (s.region_id == rid) = false) :
    lastFetchCompleted (s :: tail) rid = lastFetchCompleted tail rid := by
  unfold lastFetchCompleted
  simp only [List.find?, hb]

theorem lastFetchSuccess_cons_pos (s : FetchStatusRow) (tail : List FetchStatusRow)
    (rid : Nat) (hb : (s.region_id == rid) = true) :
    lastFetchSuccess (s :: tail) rid = some s.last_fetch_success := by
  unfold lastFetchSuccess
  simp only [List.find?, hb]
  rfl

theorem lastFetchSuccess_cons_neg (s : FetchStatusRow) (tail : List FetchStatusRow)
    (rid : Nat) (hb : (s.region_id == rid) = false) :
    lastFetchSuccess (s :: tail) rid = lastFetchSuccess tail rid := by
  unfold lastFetchSuccess
  simp only [List.find?, hb]

theorem lastFetchCompleted_statusStarted (st : List FetchStatusRow) (rid ft : Nat) :
    lastFetchCompleted (statusStarted st rid ft) rid = lastFetchCompleted st rid := by
  induction st with
  | nil =>
      simp [statusStarted, lastFetchCompleted, List.find?]
  | cons s rest ih =>
      simp only [statusStarted]
      by_cases hb : (s.region_id == rid) = true
      · rw [if_pos hb,
          lastFetchCompleted_cons_pos
            { s with last_fetch_started := some ft, last_fetch_success := false } rest rid hb,
          lastFetchCompleted_cons_pos s rest rid hb]
      · rw [if_neg hb, lastFetchCompleted_cons_neg _ _ _ (by simpa using hb),
          lastFetchCompleted_cons_neg _ _ _ (by simpa using hb)]
        exact ih

theorem lastFetchCompleted_statusFailed (st : List FetchStatusRow) (rid : Nat) :
    lastFetchCompleted (statusFailed st rid) rid = lastFetchCompleted st rid := by
  induction st with
  | nil =>
      simp [statusFailed, lastFetchCompleted, List.find?]
  | cons s rest ih =>
      simp only [statusFailed]
      by_cases hb : (s.region_id == rid) = true
      · rw [if_pos hb,
          lastFetchCompleted_cons_pos { s with last_fetch_success := false } rest rid hb,
          lastFetchCompleted_cons_pos s rest rid hb]
      · rw [if_neg hb, lastFetchCompleted_cons_neg _ _ _ (by simpa using hb),
          lastFetchCompleted_cons_neg _ _ _ (by simpa using hb)]
        exact ih

theorem lastFetchSuccess_statusFailed (st : List FetchStatusRow) (rid : Nat) :
    lastFetchSuccess (statusFailed st rid) rid = some false := by
  induction st with
  | nil =>
      simp [statusFailed, lastFetchSuccess, List.find?]
  | cons s rest ih =>
      simp only [statusFailed]
      by_cases hb : (s.region_id == rid) = true
      · rw [if_pos hb,
          lastFetchSuccess_cons_pos { s with last_fetch_success := false } rest rid hb]
      · rw [if_neg hb, lastFetchSuccess_cons_neg _ _ _ (by simpa using hb)]
        exact ih

theorem collectRun_orders_nil_of_not_changed (page1 : PageResult) (later : List PageResult)
    (h : (collectRun page1 later).anyChanged = false) :
    (collectRun page1 later).orders = [] := by
  have key : ∀ (l : List (Nat × PageResult)) (acc : Collected),
      (acc.anyChanged = false → acc.orders = []) →
      ((l.foldl (fun acc p => collectStep acc (p.1 + 2) p.2) acc).anyChanged = false →
        (l.foldl (fun acc p => collectStep acc (p.1 + 2) p.2) acc).orders = []) := by
    intro l
    induction l with
    | nil => intro acc hacc; exact hacc
    | cons p ps ih =>
        intro acc hacc
        refine ih (collectStep acc (p.1 + 2) p.2) ?_
        cases hpr : p.2 with
        | unchanged => simpa [collectStep, hpr] using hacc
        | updated rows et => simp [collectStep, hpr]
        | failed code => simpa [collectStep, hpr] using hacc
  refine key later.enum (collectStep ⟨[], [], false, false⟩ 1 page1) ?_ h
  cases page1 with
  | unchanged => simp [collectStep]
  | updated rows et => simp [collectStep]
  | failed code => simp [collectStep]

/-! ### Evaluation lemmas for `fetch_market_orders` -/

/-- A run whose page-1 request did not hard-fail and that hits no exception
executes the work phase on the state with the started status committed. -/
theorem fetch_eval_ok_db (db : Db) (rid : Nat) (tid : Option Nat) (ft : Nat)
    (page1 : PageResult) (later : List PageResult)
    (hp1 : ∀ code, page1 ≠ PageResult.failed code) :
    (fetch_market_orders db rid tid ft page1 later false).1 =
      syncWork { db with status := statusStarted db.status rid ft } rid tid ft
        (collectRun page1 later) := by
  cases page1 with
  | failed code => exact absurd rfl (hp1 code)
  | unchanged => rfl
  | updated rows et => rfl

/-- The order table computed by the work phase, with the lets unfolded. -/
theorem syncWork_orders (db1 : Db) (rid : Nat) (tid : Option Nat) (ft : Nat) (c : Collected) :
    (syncWork db1 rid tid ft c).orders =
      (if c.anyChanged && tid.isNone then
        if (lastFetchCompleted db1.status rid).isSome then
          deleteStale
            (if c.anyUnchanged then
              bumpRegion (if c.orders.isEmpty then db1.orders
                else bulkUpsert rid ft db1.orders c.orders) rid ft
             else (if c.orders.isEmpty then db1.orders
                else bulkUpsert rid ft db1.orders c.orders)) rid ft
        else (if c.orders.isEmpty then db1.orders else bulkUpsert rid ft db1.orders c.orders)
      else (if c.orders.isEmpty then db1.orders else bulkUpsert rid ft db1.orders c.orders)) :=
  rfl

/-- Any stored order id survives the pre-deletion part of the pipeline. -/
theorem upsert_table_mem_id (rid ft : Nat) (tbl : List OrderRow) (os : List FeedOrder)
    (oid : Nat) (h : ∃ r ∈ tbl, r.order_id = oid) :
    ∃ r ∈ (if os.isEmpty then tbl else bulkUpsert rid ft tbl os), r.order_id = oid := by
  by_cases he : os.isEmpty = true
  · rw [if_pos he]; exact h
  · rw [if_neg he]; exact bulkUpsert_mem_id rid ft os tbl oid h

/-! ### C2: reconciliation safety -/

/-- C2: an order that appeared in an Updated page of a completed run of
`fetch_market_orders` is still present at the end of the run, stamped with
the fetch start time: the bulk upsert writes it with watermark
`fetch_start_time`, the bump can only re-stamp it with the same watermark,
and the stale-row deletion only removes rows with a strictly older
watermark, no matter how many other pages returned Unchanged. -/
theorem upserted_order_survives_cycle (db : Db) (rid : Nat) (tid : Option Nat) (ft : Nat)
    (page1 : PageResult) (later : List PageResult)
    (hp1 : ∀ code, page1 ≠ PageResult.failed code)
    (o : FeedOrder) (ho : o ∈ (collectRun page1 later).orders) :
    ∃ r ∈ (fetch_market_orders db rid tid ft page1 later false).1.orders,
      r.order_id = o.order_id ∧ r.updated_at = ft := by
  rw [fetch_eval_ok_db db rid tid ft page1 later hp1, syncWork_orders]
  have hne : (collectRun page1 later).orders.isEmpty = false := by
    cases h : (collectRun page1 later).orders with
    | nil => rw [h] at ho; cases ho
    | cons a as => simp [h]
  have fresh : ∃ r ∈ (if (collectRun page1 later).orders.isEmpty then
        ({ db with status := statusStarted db.status rid ft } : Db).orders
      else bulkUpsert rid ft ({ db with status := statusStarted db.status rid ft } : Db).orders
        (collectRun page1 later).orders),
      r.order_id = o.order_id ∧ r.updated_at = ft := by
    rw [if_neg (by simp [hne])]
    exact bulkUpsert_fresh_of_mem rid ft _ _ o ho
  by_cases hgate : ((collectRun page1 later).anyChanged && tid.isNone) = true
  · rw [if_pos hgate]
    by_cases hlc : (lastFetchCompleted
        (statusStarted db.status rid ft) rid).isSome = true
    · rw [if_pos hlc]
      by_cases hu : (collectRun page1 later).anyUnchanged = true
      · rw [if_pos hu]
        exact deleteStale_keeps_fresh _ rid ft o.order_id
          (bumpRegion_keeps_fresh _ rid ft o.order_id fresh)
      · rw [if_neg hu]
        exact deleteStale_keeps_fresh _ rid ft o.order_id fresh
    · rw [if_neg hlc]
      exact fresh
  · rw [if_neg hgate]
    exact fresh

/-- A single order served by an Updated page in the C2 witness run. -/
def feedC2 : FeedOrder :=
  { order_id := 9, type_id := 5, price := 2, volume_remain := 4,
    is_buy_order := false, issued := 0, duration := 30, min_volume := 1,
    range := "region", location_id := 11 }

/-- Initial state of the C2 witness run: region 7 with one recorded
completion and an empty order table. -/
def dbC2 : Db :=
  { orders := [],
    etags := [],
    status := [{ region_id := 7, last_fetch_started := some 3,
                 last_fetch_completed := some 3, last_fetch_success := true,
                 orders_fetched := 0 }] }

/-- Witness for C2: a concrete run of region 7 at time 10 whose page 1 is
Updated with order 9 and whose page 2 is Unchanged keeps order 9, stamped
with time 10. -/
theorem upserted_order_survives_cycle_witness :
    ∃ r ∈ (fetch_market_orders dbC2 7 none 10 (PageResult.updated [feedC2] none)
        [PageResult.unchanged] false).1.orders,
      r.order_id = feedC2.order_id ∧ r.updated_at = 10 :=
  upserted_order_survives_cycle dbC2 7 none 10 (PageResult.updated [feedC2] none)
    [PageResult.unchanged] (fun _ h => PageResult.noConfusion h) feedC2 (by decide)

/-! ### C1: deletion behaviour of the reconciliation -/

/-- A stored order of region 7, watermarked at time 3, that is absent from
the feed of the C1 counterexample run. -/
def rowB : OrderRow :=
  { order_id := 2, type_id := 5, region_id := 7, price := 1, volume_remain := 3,
    is_buy_order := false, issued := 0, duration := 30, min_volume := 1,
    range := "region", location_id := 11, updated_at := 3 }

/-- The only order served by the updated page 1 of the C1 counterexample. -/
def feedA : FeedOrder :=
  { order_id := 1, type_id := 5, price := 2, volume_remain := 4,
    is_buy_order := false, issued := 0, duration := 30, min_volume := 1,
    range := "region", location_id := 11 }

/-- Initial state of the C1 counterexample run: region 7 holds only `rowB`
and has a recorded successful completion at time 3. -/
def dbC1 : Db :=
  { orders := [rowB],
    etags := [],
    status := [{ region_id := 7, last_fetch_started := some 3,
                 last_fetch_completed := some 3, last_fetch_success := true,
                 orders_fetched := 1 }] }

/-- Counterexample to C1 as stated: a full-types run of region 7 at time 10
in which page 1 is Updated (serving only order 1) and page 2 is Unchanged.
Order 2 is truly missing from every reachable page of the feed, so the claim
says it is deleted; the code instead bumps the watermark of every stored row
before deleting, so order 2 survives (with watermark 10) and nothing is ever
deleted in a mixed Updated/Unchanged run. -/
theorem reconciliation_mixed_counterexample :
    ∃ r ∈ (fetch_market_orders dbC1 7 none 10
        (PageResult.updated [feedA] (some "e1")) [PageResult.unchanged] false).1.orders,
      r.order_id = 2 ∧ r.updated_at = 10 := by decide

/-- C1 (amended): for a run of `fetch_market_orders` on region R:
(1) if no page returned Updated, the order table is left completely
unchanged (no upserts, no deletions);
(2) if at least one page returned Updated, no page returned Unchanged, the
run fetched all types and the region has a recorded completion, then after
the bulk upsert every order absent from the fetched feed whose rows are
stale rows of R (watermark older than the fetch start) is deleted;
(3) if at least one page returned Updated and at least one page returned
Unchanged, no order is deleted at all: every stored order id survives the
run.  Clause (3) replaces the claimed "deleted iff truly missing from every
reachable page": in a mixed run the watermark bump rescues every stored row,
so the code deletes nothing. -/
theorem reconciliation_cases (db : Db) (rid : Nat) (tid : Option Nat) (ft : Nat)
    (page1 : PageResult) (later : List PageResult) :
    ((collectRun page1 later).anyChanged = false →
       (fetch_market_orders db rid tid ft page1 later false).1.orders = db.orders) ∧
    ((collectRun page1 later).anyChanged = true →
     (collectRun page1 later).anyUnchanged = false → tid = none →
     (∀ code, page1 ≠ PageResult.failed code) →
     (lastFetchCompleted db.status rid).isSome = true →
     ∀ oid : Nat,
       (∀ o ∈ (collectRun page1 later).orders, o.order_id ≠ oid) →
       (∀ r ∈ db.orders, r.order_id = oid → r.region_id = rid ∧ r.updated_at < ft) →
       ∀ r ∈ (fetch_market_orders db rid tid ft page1 later false).1.orders,
         r.order_id ≠ oid) ∧
    ((collectRun page1 later).anyUnchanged = true →
     (∀ code, page1 ≠ PageResult.failed code) →
     ∀ r ∈ db.orders,
       ∃ r2 ∈ (fetch_market_orders db rid tid ft page1 later false).1.orders,
         r2.order_id = r.order_id) := by
  refine ⟨?_, ?_, ?_⟩
  · intro hch
    cases page1 with
    | failed code => rfl
    | unchanged =>
        rw [fetch_eval_ok_db db rid tid ft _ later (fun _ h => PageResult.noConfusion h),
          syncWork_orders, collectRun_orders_nil_of_not_changed _ _ hch]
        simp [hch]
    | updated rows et =>
        rw [fetch_eval_ok_db db rid tid ft _ later (fun _ h => PageResult.noConfusion h),
          syncWork_orders, collectRun_orders_nil_of_not_changed _ _ hch]
        simp [hch]
  · intro hch hu htid hp1 hlc oid hfeed hstale r hr heq
    rw [fetch_eval_ok_db db rid tid ft page1 later hp1, syncWork_orders] at hr
    rw [if_pos (by simp [hch, htid]), if_pos (by rwa [lastFetchCompleted_statusStarted]),
      if_neg (by simp [hu])] at hr
    have hkeep := (List.mem_filter.mp hr).2
    have hmem := (List.mem_filter.mp hr).1
    have hdb : r ∈ db.orders := by
      by_cases he : (collectRun page1 later).orders.isEmpty = true
      · rw [if_pos he] at hmem; exact hmem
      · rw [if_neg he] at hmem
        rcases bulkUpsert_mem rid ft _ _ r hmem with h | h
        · exact h
        · rcases h with ⟨o2, ho2, h2⟩
          exact absurd (h2.symm ▸ heq) (hfeed o2 ho2)
    rcases hstale r hdb heq with ⟨hreg, hlt⟩
    rw [hreg] at hkeep
    simp [hlt] at hkeep
  · intro hu hp1 r hr
    rw [fetch_eval_ok_db db rid tid ft page1 later hp1, syncWork_orders]
    have base : ∃ r2 ∈ (if (collectRun page1 later).orders.isEmpty then
          ({ db with status := statusStarted db.status rid ft } : Db).orders
        else bulkUpsert rid ft ({ db with status := statusStarted db.status rid ft } : Db).orders
          (collectRun page1 later).orders),
        r2.order_id = r.order_id :=
      upsert_table_mem_id rid ft _ _ r.order_id ⟨r, hr, rfl⟩
    by_cases hgate : ((collectRun page1 later).anyChanged && tid.isNone) = true
    · rw [if_pos hgate]
      by_cases hlc : (lastFetchCompleted (statusStarted db.status rid ft) rid).isSome = true
      · rw [if_pos hlc, if_pos hu, deleteStale_bump]
        exact bumpRegion_mem_id _ rid ft r.order_id base
      · rw [if_neg hlc]
        exact base
    · rw [if_neg hgate]
      exact base

/-- Witness for C1 (amended), clause (1): a run of region 7 at time 10 whose
two pages both return Unchanged leaves the order table of `dbC1` untouched. -/
theorem reconciliation_cases_witness :
    (fetch_market_orders dbC1 7 none 10 PageResult.unchanged
        [PageResult.unchanged] false).1.orders = dbC1.orders :=
  (reconciliation_cases dbC1 7 none 10 PageResult.unchanged [PageResult.unchanged]).1
    (by decide)

/-! ### C3: page-1 hard failure and exception rollback -/

/-- C3: (1) if the page-1 request returns a status other than 200 or 304,
the run stops at once: the order table and the validator table are exactly
the initial ones (no later page is consumed, no order is written or
deleted), the committed status keeps its completion fields and records
`last_fetch_success = false`, and the task returns the error; (2) if an
unhandled exception hits the work phase, the transaction is rolled back —
the order table, the validators and the completion field are unchanged by
the run — and `last_fetch_success = false` is committed.  (3) and (4) state
the status-table facts used by (1) and (2): the failed-status write after
the started-status write preserves `last_fetch_completed` and records
`last_fetch_success = false`. -/
theorem failure_rollback_paths (db : Db) (rid : Nat) (tid : Option Nat) (ft : Nat)
    (page1 : PageResult) (later : List PageResult) (exc : Bool) :
    (∀ code, page1 = PageResult.failed code →
      fetch_market_orders db rid tid ft page1 later exc =
        ({ orders := db.orders, etags := db.etags,
           status := statusFailed (statusStarted db.status rid ft) rid },
         RunResult.httpError code)) ∧
    (exc = true → (∀ code, page1 ≠ PageResult.failed code) →
      fetch_market_orders db rid tid ft page1 later exc =
        ({ orders := db.orders, etags := db.etags,
           status := statusFailed (statusStarted db.status rid ft) rid },
         RunResult.exceptionFailed)) ∧
    lastFetchCompleted (statusFailed (statusStarted db.status rid ft) rid) rid
      = lastFetchCompleted db.status rid ∧
    lastFetchSuccess (statusFailed (statusStarted db.status rid ft) rid) rid
      = some false := by
  refine ⟨?_, ?_, ?_, ?_⟩
  · intro code hpage
    subst hpage
    rfl
  · intro hexc hp1
    subst hexc
    cases page1 with
    | failed code => exact absurd rfl (hp1 code)
    | unchanged => rfl
    | updated rows et => rfl
  · rw [lastFetchCompleted_statusFailed, lastFetchCompleted_statusStarted]
  · exact lastFetchSuccess_statusFailed _ rid

/-- Initial state for the C3 witness: region 7 with a recorded completion
and one stored order (`rowB` content, region 7). -/
def dbC3 : Db :=
  { orders := [{ order_id := 4, type_id := 5, region_id := 7, price := 3,
                 volume_remain := 8, is_buy_order := true, issued := 0,
                 duration := 30, min_volume := 1, range := "station",
                 location_id := 12, updated_at := 3 }],
    etags := [{ region_id := 7, page := 1, etag := "old" }],
    status := [{ region_id := 7, last_fetch_started := some 3,
                 last_fetch_completed := some 3, last_fetch_success := true,
                 orders_fetched := 1 }] }

/-- Witness for C3: a run of region 7 at time 10 whose page 1 fails with
status 502 leaves orders and validators untouched, keeps the recorded
completion time 3, records failure, and returns the error code. -/
theorem failure_rollback_paths_witness :
    fetch_market_orders dbC3 7 none 10 (PageResult.failed 502) [PageResult.unchanged] false =
      ({ orders := dbC3.orders, etags := dbC3.etags,
         status := statusFailed (statusStarted dbC3.status 7 10) 7 },
       RunResult.httpError 502) ∧
    lastFetchCompleted (statusFailed (statusStarted dbC3.status 7 10) 7) 7 = some 3 ∧
    lastFetchSuccess (statusFailed (statusStarted dbC3.status 7 10) 7) 7 = some false := by
  refine ⟨(failure_rollback_paths dbC3 7 none 10 (PageResult.failed 502)
      [PageResult.unchanged] false).1 502 rfl, ?_, ?_⟩
  · rw [(failure_rollback_paths dbC3 7 none 10 (PageResult.failed 502)
      [PageResult.unchanged] false).2.2.1]
    decide
  · exact (failure_rollback_paths dbC3 7 none 10 (PageResult.failed 502)
      [PageResult.unchanged] false).2.2.2

/-! ### C10: the deletion gate -/

/-- C10: the stale-order deletion runs only when the run fetched all types
(`type_id is None`) and the region already has a recorded completion from a
prior cycle.  Consequently a single-type refresh never deletes any order,
and the first sync of a region (no recorded completion) never deletes any
order even when pages changed: every stored order id is still present after
the run. -/
theorem scoped_or_first_sync_never_deletes (db : Db) (rid : Nat) (tid : Option Nat)
    (ft : Nat) (page1 : PageResult) (later : List PageResult) (exc : Bool)
    (h : tid ≠ none ∨ lastFetchCompleted db.status rid = none) :
    ∀ r ∈ db.orders,
      ∃ r2 ∈ (fetch_market_orders db rid tid ft page1 later exc).1.orders,
        r2.order_id = r.order_id := by
  intro r hr
  cases page1 with
  | failed code => exact ⟨r, hr, rfl⟩
  | unchanged =>
      cases exc with
      | true => exact ⟨r, hr, rfl⟩
      | false =>
          rw [fetch_eval_ok_db db rid tid ft _ later (fun _ hcon => PageResult.noConfusion hcon),
            syncWork_orders]
          have base : ∃ r2 ∈ (if (collectRun PageResult.unchanged later).orders.isEmpty then
                ({ db with status := statusStarted db.status rid ft } : Db).orders
              else bulkUpsert rid ft
                ({ db with status := statusStarted db.status rid ft } : Db).orders
                (collectRun PageResult.unchanged later).orders),
              r2.order_id = r.order_id :=
            upsert_table_mem_id rid ft _ _ r.order_id ⟨r, hr, rfl⟩
          rcases h with h | h
          · rw [if_neg (by simp [Option.isNone_iff_eq_none, h])]
            exact base
          · by_cases hgate : ((collectRun PageResult.unchanged later).anyChanged
                && tid.isNone) = true
            · rw [if_pos hgate,
                if_neg (by simp [lastFetchCompleted_statusStarted, h])]
              exact base
            · rw [if_neg hgate]
              exact base
  | updated rows et =>
      cases exc with
      | true => exact ⟨r, hr, rfl⟩
      | false =>
          rw [fetch_eval_ok_db db rid tid ft _ later (fun _ hcon => PageResult.noConfusion hcon),
            syncWork_orders]
          have base : ∃ r2 ∈ (if (collectRun (PageResult.updated rows et) later).orders.isEmpty then
                ({ db with status := statusStarted db.status rid ft } : Db).orders
              else bulkUpsert rid ft
                ({ db with status := statusStarted db.status rid ft } : Db).orders
                (collectRun (PageResult.updated rows et) later).orders),
              r2.order_id = r.order_id :=
            upsert_table_mem_id rid ft _ _ r.order_id ⟨r, hr, rfl⟩
          rcases h with h | h
          · rw [if_neg (by simp [Option.isNone_iff_eq_none, h])]
            exact base
          · by_cases hgate : ((collectRun (PageResult.updated rows et) later).anyChanged
                && tid.isNone) = true
            · rw [if_pos hgate,
                if_neg (by simp [lastFetchCompleted_statusStarted, h])]
              exact base
            · rw [if_neg hgate]
              exact base

/-- Initial state for the C10 witness: one stored stale order of region 7
and no fetch-status row at all (first-ever sync). -/
def dbC10 : Db :=
  { orders := [{ order_id := 2, type_id := 5, region_id := 7, price := 1,
                 volume_remain := 3, is_buy_order := false, issued := 0,
                 duration := 30, min_volume := 1, range := "region",
                 location_id := 11, updated_at := 3 }],
    etags := [], status := [] }

/-- Witness for C10: the first-ever full sync of region 7 at time 10, with
an Updated page that does not contain order 2, still keeps order 2. -/
theorem scoped_or_first_sync_never_deletes_witness :
    ∃ r2 ∈ (fetch_market_orders dbC10 7 none 10
        (PageResult.updated [feedC2] none) [] false).1.orders,
      r2.order_id = 2 :=
  scoped_or_first_sync_never_deletes dbC10 7 none 10 (PageResult.updated [feedC2] none) [] false
    (Or.inr rfl)
    { order_id := 2, type_id := 5, region_id := 7, price := 1, volume_remain := 3,
      is_buy_order := false, issued := 0, duration := 30, min_volume := 1,
      range := "region", location_id := 11, updated_at := 3 }
    (by decide)

/-! ## Market history updater (`worker.py`, `fetch_region_history`) -/

/-- One row of the `market_history` table (the surrogate `id` column is
omitted: the logical key is `(region_id, type_id, date)`, unique by
constraint). -/
structure HistRow where
  region_id : Nat
  type_id : Nat
  date : Nat
  average : Rat
  highest : Rat
  lowest : Rat
  order_count : Nat
  volume : Nat
  deriving DecidableEq, Repr

/-- One daily aggregate served by the history feed. -/
structure HistEntry where
  date : Nat
  average : Rat
  highest : Rat
  lowest : Rat
  order_count : Nat
  volume : Nat
  deriving DecidableEq, Repr

/-- Outcome of the per-type history request: 200 with data, 404 (a valid
no-history outcome), another HTTP status, or an exception during that
type's processing (that type's uncommitted insert is rolled back). -/
inductive HistResult where
  | ok (entries : List HistEntry)
  | notFound
  | httpError (code : Nat)
  | exn
  deriving DecidableEq, Repr

/-- `select type_id, max(date) ... group by type_id`, looked up for one
type: the latest locally stored history date. -/
def latestHistDate (tbl : List HistRow) (rid t : Nat) : Option Nat :=
  (tbl.filter (fun r => r.region_id == rid && r.type_id == t)).foldl
    (fun acc r =>
      match acc with
      | none => some r.date
      | some d => some (max d r.date)) none

/-- Membership of a `(region_id, type_id, date)` key in the table. -/
def histKeyMem (tbl : List HistRow) (rid t d : Nat) : Bool :=
  tbl.any (fun r => r.region_id == rid && r.type_id == t && r.date == d)

/-- The staleness filter of `fetch_region_history`: keep the types whose
latest stored date is missing or strictly older than yesterday (UTC). -/
def typesToFetch (tbl : List HistRow) (rid yesterday : Nat) (types : List Nat) : List Nat :=
  types.filter (fun t =>
    match latestHistDate tbl rid t with
    | some d => decide (d < yesterday)
    | none => true)

/-- `existing_dates_by_type` for one type: the dates already stored for the
region and type within the retention window, computed once against the
initial table. -/
def existingDatesInit (tbl : List HistRow) (rid cutoff t : Nat) : List Nat :=
  (tbl.filter (fun r => r.region_id == rid && decide (cutoff ≤ r.date)
    && r.type_id == t)).map (fun r => r.date)

/-- The row built from one feed entry. -/
def mkHistRow (rid t : Nat) (e : HistEntry) : HistRow :=
  { region_id := rid, type_id := t, date := e.date, average := e.average,
    highest := e.highest, lowest := e.lowest, order_count := e.order_count,
    volume := e.volume }

/-- Insertion of one type's feed data: keep the entries within the retention
window (`recent_history`), drop those whose date is in the precomputed
existing set (`rows_to_insert`), and let `ON CONFLICT DO NOTHING` skip any
key already present in the live table. -/
def insertEntries (rid t cutoff : Nat) (initDates : List Nat) (tbl : List HistRow)
    (entries : List HistEntry) : List HistRow :=
  entries.foldl
    (fun acc e =>
      if decide (cutoff ≤ e.date) && !initDates.contains e.date
          && !histKeyMem acc rid t e.date then
        acc ++ [mkHistRow rid t e]
      else acc) tbl

/-- Embedding of `worker.py` `fetch_region_history`: list the active types
(a failed listing aborts before any write), keep the stale types, and for
each stale type insert the missing in-window daily records; a per-type
error, 404 or exception leaves the table as it was (each type's insert is
committed separately). -/
def fetch_region_history (tbl : List HistRow) (rid yesterday cutoff : Nat)
    (typeListing : Option (List Nat)) (feed : Nat → HistResult) : List HistRow :=
  match typeListing with
  | none => tbl
  | some types =>
      (typesToFetch tbl rid yesterday types).foldl
        (fun acc t =>
          match feed t with
          | .ok entries =>
              insertEntries rid t cutoff (existingDatesInit tbl rid cutoff t) acc entries
          | _ => acc) tbl

theorem histKeyMem_append (l1 l2 : List HistRow) (rid t d : Nat) :
    histKeyMem (l1 ++ l2) rid t d = (histKeyMem l1 rid t d || histKeyMem l2 rid t d) := by
  simp [histKeyMem, List.any_append]

theorem histKeyMem_false_of_append (l1 l2 : List HistRow) (rid t d : Nat)
    (h : histKeyMem (l1 ++ l2) rid t d = false) : histKeyMem l1 rid t d = false := by
  rw [histKeyMem_append] at h
  cases hx : histKeyMem l1 rid t d
  · rfl
  · rw [hx] at h
    simp at h

theorem insertEntries_spec (rid t cutoff : Nat) (initDates : List Nat)
    (entries : List HistEntry) :
    ∀ tbl : List HistRow,
      ∃ extra : List HistRow,
        insertEntries rid t cutoff initDates tbl entries = tbl ++ extra ∧
        ∀ r ∈ extra, r.region_id = rid ∧ cutoff ≤ r.date ∧
          histKeyMem tbl rid r.type_id r.date = false := by
  induction entries with
  | nil => exact fun tbl => ⟨[], by simp [insertEntries], by simp⟩
  | cons e es ih =>
      intro tbl
      by_cases hc : (decide (cutoff ≤ e.date) && !initDates.contains e.date
          && !histKeyMem tbl rid t e.date) = true
      · have hstep : insertEntries rid t cutoff initDates tbl (e :: es)
            = insertEntries rid t cutoff initDates (tbl ++ [mkHistRow rid t e]) es := by
          simp only [insertEntries, List.foldl_cons]
          rw [if_pos hc]
        have hparts : (decide (cutoff ≤ e.date)) = true
            ∧ (!histKeyMem tbl rid t e.date) = true := by
          simp only [Bool.and_eq_true] at hc
          exact ⟨hc.1.1, hc.2⟩
        rcases ih (tbl ++ [mkHistRow rid t e]) with ⟨extra, heq, hprop⟩
        refine ⟨mkHistRow rid t e :: extra, ?_, ?_⟩
        · rw [hstep, heq]
          simp
        · intro r hrm
          rcases List.mem_cons.mp hrm with rfl | hrm2
          · exact ⟨rfl, of_decide_eq_true hparts.1,
              by simpa using hparts.2⟩
          · rcases hprop r hrm2 with ⟨h1, h2, h3⟩
            exact ⟨h1, h2, histKeyMem_false_of_append _ _ _ _ _ h3⟩
      · have hstep : insertEntries rid t cutoff initDates tbl (e :: es)
            = insertEntries rid t cutoff initDates tbl es := by
          simp only [insertEntries, List.foldl_cons]
          rw [if_neg hc]
        rcases ih tbl with ⟨extra, heq, hprop⟩
        exact ⟨extra, by rw [hstep, heq], hprop⟩

theorem historyFold_spec (rid cutoff : Nat) (feed : Nat → HistResult)
    (tbl : List HistRow) (ex : Nat → List Nat) (ts : List Nat) :
    ∀ acc : List HistRow,
      (∃ e0 : List HistRow, acc = tbl ++ e0 ∧
        ∀ r ∈ e0, r.region_id = rid ∧ cutoff ≤ r.date ∧
          histKeyMem tbl rid r.type_id r.date = false) →
      ∃ e1 : List HistRow,
        ts.foldl (fun acc t =>
          match feed t with
          | .ok entries => insertEntries rid t cutoff (ex t) acc entries
          | _ => acc) acc = tbl ++ e1 ∧
        ∀ r ∈ e1, r.region_id = rid ∧ cutoff ≤ r.date ∧
          histKeyMem tbl rid r.type_id r.date = false := by
  induction ts with
  | nil => exact fun acc h => h
  | cons t ts ih =>
      intro acc hacc
      rcases hacc with ⟨e0, rfl, hprop0⟩
      rw [List.foldl_cons]
      cases hf : feed t with
      | ok entries =>
          rcases insertEntries_spec rid t cutoff (ex t) entries (tbl ++ e0)
            with ⟨extra, heq, hprop⟩
          refine ih (insertEntries rid t cutoff (ex t) (tbl ++ e0) entries)
            ⟨e0 ++ extra, by rw [heq, List.append_assoc], ?_⟩
          intro r hrm
          rcases List.mem_append.mp hrm with h | h
          · exact hprop0 r h
          · rcases hprop r h with ⟨h1, h2, h3⟩
            exact ⟨h1, h2, histKeyMem_false_of_append _ _ _ _ _ h3⟩
      | notFound => exact ih _ ⟨e0, rfl, hprop0⟩
      | httpError code => exact ih _ ⟨e0, rfl, hprop0⟩
      | exn => exact ih _ ⟨e0, rfl, hprop0⟩

/-- C9: `fetch_region_history` fetches only types whose latest stored
history date is missing or strictly older than yesterday, and its effect on
the `market_history` table is purely additive: the final table is the
initial one plus rows of the region that lie within the retention window
and whose `(region_id, type_id, date)` key was not already present — no
existing row is updated or deleted. -/
theorem history_fetch_spec (tbl : List HistRow) (rid yesterday cutoff : Nat)
    (typeListing : Option (List Nat)) (feed : Nat → HistResult) :
    (∀ types, typeListing = some types →
       ∀ t ∈ typesToFetch tbl rid yesterday types,
         latestHistDate tbl rid t = none ∨
           ∃ d, latestHistDate tbl rid t = some d ∧ d < yesterday) ∧
    ∃ extra : List HistRow,
      fetch_region_history tbl rid yesterday cutoff typeListing feed = tbl ++ extra ∧
      ∀ r ∈ extra, r.region_id = rid ∧ cutoff ≤ r.date ∧
        histKeyMem tbl rid r.type_id r.date = false := by
  constructor
  · intro types _ t ht
    have hpred := (List.mem_filter.mp ht).2
    cases hl : latestHistDate tbl rid t with
    | none => exact Or.inl rfl
    | some d =>
        rw [hl] at hpred
        exact Or.inr ⟨d, rfl, of_decide_eq_true hpred⟩
  · cases typeListing with
    | none => exact ⟨[], by simp [fetch_region_history], by simp⟩
    | some types =>
        exact historyFold_spec rid cutoff feed tbl
          (fun t => existingDatesInit tbl rid cutoff t)
          (typesToFetch tbl rid yesterday types) tbl ⟨[], by simp, by simp⟩

/-- Initial history table of the C9 witness: region 7 already has one row
for type 4 dated 60. -/
def histC9 : List HistRow :=
  [{ region_id := 7, type_id := 4, date := 60, average := 2, highest := 3,
     lowest := 1, order_count := 5, volume := 9 }]

/-- History feed of the C9 witness: type 5 serves one in-window day and one
out-of-window day, everything else serves nothing. -/
def feedC9 : Nat → HistResult := fun t =>
  if t == 5 then
    HistResult.ok
      [{ date := 70, average := 4, highest := 5, lowest := 3, order_count := 2, volume := 6 },
       { date := 30, average := 1, highest := 2, lowest := 1, order_count := 1, volume := 2 }]
  else HistResult.ok []

/-- Witness for C9 at a concrete run (region 7, yesterday 100, cutoff 50,
types 4 and 5): type 4, which the run fetches, is indeed stale. -/
theorem history_fetch_spec_witness :
    latestHistDate histC9 7 4 = none ∨
      ∃ d, latestHistDate histC9 7 4 = some d ∧ d < 100 :=
  (history_fetch_spec histC9 7 100 50 (some [4, 5]) feedC9).1 [4, 5] rfl 4 (by decide)

/-! ## Trade-route discovery (`mcp_handlers/tools.py`, `find_trade_routes`) -/

/-- One row of `sde_solar_systems` (fields the function reads). -/
structure SolarSystem where
  system_id : Nat
  name : String
  deriving DecidableEq, Repr

/-- One row of `sde_solar_system_jumps`: a directed edge. -/
structure Jump where
  from_solar_system_id : Nat
  to_solar_system_id : Nat
  deriving DecidableEq, Repr

/-- One row of `sde_stations` (fields the function reads). -/
structure Station where
  station_id : Nat
  solar_system_id : Nat
  name : String
  deriving DecidableEq, Repr

/-- The read-only state `find_trade_routes` consults. -/
structure MarketDb where
  systems : List SolarSystem
  jumps : List Jump
  stations : List Station
  orders : List OrderRow
  types : List (Nat × String)
  deriving Repr

/-- `select(SdeSolarSystem).where(SdeSolarSystem.name == ...)`, `.first()`. -/
def resolveSystem (db : MarketDb) (name : String) : Option SolarSystem :=
  db.systems.find? (fun s => s.name == name)

/-- The Python exception the embedded `find_trade_routes` can raise. -/
inductive PyExc where
  | typeError
  deriving DecidableEq, Repr

/-- The BFS loop of `find_trade_routes` as written in the source: while the
queue is non-empty, the first statement executed is `current = queue.pop(0)`
— but `queue` is a `collections.deque`, whose `pop` method accepts no index
argument, so this call raises `TypeError: deque.pop() takes no arguments`.
The loop finishes normally only if the queue is empty on entry, which never
happens: it is seeded with the start system. -/
def bfsRun (visited : List (Nat × Nat)) (queue : List Nat) :
    Except PyExc (List (Nat × Nat)) :=
  match queue with
  | [] => .ok visited
  | _ :: _ => .error .typeError

/-- The start-system sell-order query: orders joined to stations on
`location_id = station_id`, restricted to the start system and
`is_buy_order = 0`; one `(type_id, price, volume_remain)` row per match. -/
def sellOrdersAt (db : MarketDb) (sysId : Nat) : List (Nat × Rat × Int) :=
  db.orders.flatMap (fun o =>
    if o.is_buy_order == false then
      (db.stations.filter (fun s => s.station_id == o.location_id
        && s.solar_system_id == sysId)).map
        (fun _ => (o.type_id, o.price, o.volume_remain))
    else [])

/-- One step of the best-sell-price dictionary: keep, per type, the first
seen row with the strictly smallest price (and its volume). -/
def updateBest (acc : List (Nat × Rat × Int)) (row : Nat × Rat × Int) :
    List (Nat × Rat × Int) :=
  match acc.find? (fun x => x.1 == row.1) with
  | none => acc ++ [row]
  | some x =>
      if row.2.1 < x.2.1 then acc.map (fun y => if y.1 == row.1 then row else y)
      else acc

/-- `best_sell_prices`: fold of the sell rows into the dictionary. -/
def bestSellPrices (rows : List (Nat × Rat × Int)) : List (Nat × Rat × Int) :=
  rows.foldl updateBest []

/-- Join row of the buy-order query over the reachable systems. -/
structure BuyRow where
  type_id : Nat
  price : Rat
  volume_remain : Int
  sys_id : Nat
  station_name : String
  deriving DecidableEq, Repr

/-- The reachable-systems buy-order query: orders joined to stations,
restricted to stations in reachable systems and `is_buy_order = 1`. -/
def buyOrdersIn (db : MarketDb) (validIds : List Nat) : List BuyRow :=
  db.orders.flatMap (fun o =>
    if o.is_buy_order == true then
      (db.stations.filter (fun s => s.station_id == o.location_id
        && validIds.contains s.solar_system_id)).map
        (fun s => { type_id := o.type_id, price := o.price,
                    volume_remain := o.volume_remain,
                    sys_id := s.solar_system_id, station_name := s.name })
    else [])

/-- The transient result record of the arbitrage scan. -/
structure Opportunity where
  item : String
  buy_from : String
  sell_to : String
  buy_price : Rat
  sell_price : Rat
  quantity : Int
  total_cost : Rat
  total_profit : Rat
  jumps : Nat
  deriving DecidableEq, Repr

/-- Python `int()` on a rational: truncation toward zero. -/
def intTrunc (q : Rat) : Int := if 0 ≤ q then ⌊q⌋ else -⌊-q⌋

/-- `tradeable_vol = min(buy_order.volume, sell_volume_at_best_price)`. -/
def tradeVol0 (x : Nat × Rat × Int) (b : BuyRow) : Int := min b.volume_remain x.2.2

/-- The tradeable volume after the budget check: re-clamped to
`int(budget / sell_price)` when the unclamped cost exceeds the budget. -/
def tradeVol (budget : Rat) (x : Nat × Rat × Int) (b : BuyRow) : Int :=
  if budget < x.2.1 * ((tradeVol0 x b : Int) : Rat) then intTrunc (budget / x.2.1)
  else tradeVol0 x b

/-- `total_cost = sell_price * tradeable_vol`, recomputed after the clamp. -/
def tradeCost (budget : Rat) (x : Nat × Rat × Int) (b : BuyRow) : Rat :=
  if budget < x.2.1 * ((tradeVol0 x b : Int) : Rat) then
    x.2.1 * ((tradeVol budget x b : Int) : Rat)
  else x.2.1 * ((tradeVol0 x b : Int) : Rat)

/-- The per-buy-order body of the arbitrage loop: skip types with no
start-system sell order; skip non-positive margins; tradeable volume is the
minimum of the buy order's volume and the best-sell volume; when the cost
would exceed the budget, re-clamp the volume to `int(budget / sell_price)`;
drop the pair when the volume is then non-positive. -/
def computeOpp (budget : Rat) (typeNames : List (Nat × String)) (startName : String)
    (best : List (Nat × Rat × Int)) (visited : List (Nat × Nat)) (b : BuyRow) :
    Option Opportunity :=
  match best.find? (fun x => x.1 == b.type_id) with
  | none => none
  | some x =>
      if b.price ≤ x.2.1 then none
      else if tradeVol budget x b ≤ 0 then none
      else
        some { item := (typeNames.lookup b.type_id).getD "Unknown Item",
               buy_from := startName,
               sell_to := b.station_name,
               buy_price := x.2.1,
               sell_price := b.price,
               quantity := tradeVol budget x b,
               total_cost := tradeCost budget x b,
               total_profit := (b.price - x.2.1) * ((tradeVol budget x b : Int) : Rat),
               jumps := (visited.lookup b.sys_id).getD 0 }

/-- The arbitrage loop over all buy rows. -/
def computeOpportunities (budget : Rat) (typeNames : List (Nat × String))
    (startName : String) (best : List (Nat × Rat × Int)) (visited : List (Nat × Nat))
    (buys : List BuyRow) : List Opportunity :=
  buys.filterMap (computeOpp budget typeNames startName best visited)

/-- Stable insertion into a profit-descending list (`list.sort` with
`reverse=True` is stable: equal profits keep their relative order). -/
def insertByProfit (o : Opportunity) : List Opportunity → List Opportunity
  | [] => [o]
  | x :: xs => if x.total_profit < o.total_profit then o :: x :: xs
               else x :: insertByProfit o xs

/-- Sort by `total_profit` descending, stably. -/
def sortByProfitDesc (l : List Opportunity) : List Opportunity :=
  l.foldr insertByProfit []

/-- The explicit error results of `find_trade_routes`. -/
inductive TrError where
  | systemNotFound
  | noSellOrders
  deriving DecidableEq, Repr

/-- A normal return of `find_trade_routes`: an error dictionary or a list
of opportunities. -/
inductive TrOut where
  | errorResult (e : TrError)
  | opportunities (l : List Opportunity)
  deriving DecidableEq, Repr

/-- Embedding of `mcp_handlers/tools.py` `find_trade_routes`: resolve the
start system (unknown name: an explicit error result); run the BFS over the
jump graph from the start seed (`bfsRun` raises `TypeError` on its first
iteration, see there); then — on normal BFS exit — scan sell orders at the
start (none: an explicit error result), buy orders in reachable systems,
compute the opportunities, sort by profit descending and return the top
`limit`.  `maxJumps` is only read inside the BFS loop body, which never
completes an iteration. -/
def find_trade_routes (db : MarketDb) (startName : String) (maxJumps : Nat)
    (budget : Rat) (limit : Nat) : Except PyExc TrOut :=
  match resolveSystem db startName with
  | none => .ok (.errorResult .systemNotFound)
  | some startSystem =>
      match bfsRun [(startSystem.system_id, 0)] [startSystem.system_id] with
      | .error e => .error e
      | .ok visited =>
          let validIds := visited.map (fun p => p.1)
          let best := bestSellPrices (sellOrdersAt db startSystem.system_id)
          if best.isEmpty then .ok (.errorResult .noSellOrders)
          else
            let names := db.types.filter (fun p => (best.map (fun x => x.1)).contains p.1)
            let opps := computeOpportunities budget names startName best visited
              (buyOrdersIn db validIds)
            .ok (.opportunities ((sortByProfitDesc opps).take limit))

theorem tradeVol_spec (budget : Rat) (x : Nat × Rat × Int) (b : BuyRow)
    (hp : 0 < x.2.1) (hpos : 0 < tradeVol budget x b) :
    tradeVol budget x b ≤ tradeVol0 x b ∧
    tradeCost budget x b = x.2.1 * ((tradeVol budget x b : Int) : Rat) ∧
    tradeCost budget x b ≤ budget := by
  have hne : x.2.1 ≠ 0 := ne_of_gt hp
  by_cases hcl : budget < x.2.1 * ((tradeVol0 x b : Int) : Rat)
  · have htv : tradeVol budget x b = intTrunc (budget / x.2.1) := if_pos hcl
    have hq : (0 : Rat) ≤ budget / x.2.1 := by
      by_contra hneg
      push_neg at hneg
      have hle : intTrunc (budget / x.2.1) ≤ 0 := by
        unfold intTrunc
        rw [if_neg (not_le.mpr hneg)]
        have h0 : (0 : Rat) ≤ -(budget / x.2.1) := by linarith
        have h1 : (0 : Int) ≤ ⌊-(budget / x.2.1)⌋ := Int.floor_nonneg.mpr h0
        omega
      rw [htv] at hpos
      omega
    have hfl : tradeVol budget x b = ⌊budget / x.2.1⌋ := by
      rw [htv]
      unfold intTrunc
      rw [if_pos hq]
    refine ⟨?_, ?_, ?_⟩
    · have hlt : budget / x.2.1 < ((tradeVol0 x b : Int) : Rat) := by
        rw [div_lt_iff₀ hp]
        linarith [hcl]
      have h2 : ⌊budget / x.2.1⌋ < tradeVol0 x b := Int.floor_lt.mpr hlt
      rw [hfl]
      exact le_of_lt h2
    · unfold tradeCost
      rw [if_pos hcl]
    · unfold tradeCost
      rw [if_pos hcl, hfl]
      have h1 : ((⌊budget / x.2.1⌋ : Int) : Rat) ≤ budget / x.2.1 := Int.floor_le _
      calc x.2.1 * ((⌊budget / x.2.1⌋ : Int) : Rat)
          ≤ x.2.1 * (budget / x.2.1) := mul_le_mul_of_nonneg_left h1 (le_of_lt hp)
        _ = budget := by field_simp
  · have htv : tradeVol budget x b = tradeVol0 x b := if_neg hcl
    refine ⟨le_of_eq htv, ?_, ?_⟩
    · unfold tradeCost
      rw [if_neg hcl, htv]
    · unfold tradeCost
      rw [if_neg hcl]
      exact not_lt.mp hcl

/-- C5: every opportunity produced by the arbitrage scan satisfies
`1 ≤ quantity`, `total_cost = buy_price * quantity` and
`total_cost ≤ budget` — `buy_price` being the best (minimum) start-system
sell price for the item, with the quantity floor-clamped to
`int(budget / buy_price)` whenever the unclamped cost would exceed the
budget — and the quantity never exceeds the destination buy order's
remaining volume nor the best-priced sell order's volume.  Prices are exact
rationals; every best-sell price is assumed positive. -/
theorem arbitrage_budget_sound (budget : Rat) (typeNames : List (Nat × String))
    (startName : String) (best : List (Nat × Rat × Int)) (visited : List (Nat × Nat))
    (buys : List BuyRow) (hpos : ∀ x ∈ best, 0 < x.2.1) (o : Opportunity)
    (ho : o ∈ computeOpportunities budget typeNames startName best visited buys) :
    1 ≤ o.quantity ∧
    o.total_cost = o.buy_price * ((o.quantity : Int) : Rat) ∧
    o.total_cost ≤ budget ∧
    ∃ b ∈ buys, ∃ x ∈ best, x.1 = b.type_id ∧ o.buy_price = x.2.1 ∧
      o.quantity ≤ b.volume_remain ∧ o.quantity ≤ x.2.2 := by
  rcases List.mem_filterMap.mp ho with ⟨b, hb, hsome⟩
  unfold computeOpp at hsome
  split at hsome
  · cases hsome
  · rename_i x hf
    have hx : x ∈ best := List.mem_of_find?_eq_some hf
    have hxid : x.1 = b.type_id := by simpa using List.find?_some hf
    have hp : 0 < x.2.1 := hpos x hx
    by_cases hm : b.price ≤ x.2.1
    · rw [if_pos hm] at hsome; cases hsome
    · rw [if_neg hm] at hsome
      by_cases hz : tradeVol budget x b ≤ 0
      · rw [if_pos hz] at hsome; cases hsome
      · rw [if_neg hz] at hsome
        have ho2 := Option.some.inj hsome
        have hzpos : 0 < tradeVol budget x b := lt_of_not_ge hz
        rcases tradeVol_spec budget x b hp hzpos with ⟨hle, hcost, hbud⟩
        subst ho2
        refine ⟨by show 1 ≤ tradeVol budget x b; omega, hcost, hbud,
          b, hb, x, hx, hxid, rfl, ?_, ?_⟩
        · exact le_trans hle (min_le_left _ _)
        · exact le_trans hle (min_le_right _ _)

/-- The market snapshot of the C5 witness: the single-item Jita/Amarr
scenario data. -/
def bestC5 : List (Nat × Rat × Int) := [(34, 10, 100)]

/-- The destination buy order of the C5 witness. -/
def buyRowC5 : BuyRow :=
  { type_id := 34, price := 15, volume_remain := 50, sys_id := 31,
    station_name := "Amarr Trade Hub" }

/-- The opportunity computed in the C5 witness. -/
def oppC5 : Opportunity :=
  { item := "Unknown Item", buy_from := "Jita", sell_to := "Amarr Trade Hub",
    buy_price := 10, sell_price := 15, quantity := 50, total_cost := 500,
    total_profit := 250, jumps := 2 }

/-- Witness for C5 at the concrete scenario: quantity 50, cost 500 within
budget 1000, quantity within both volumes. -/
theorem arbitrage_budget_sound_witness :
    1 ≤ oppC5.quantity ∧
    oppC5.total_cost = oppC5.buy_price * ((oppC5.quantity : Int) : Rat) ∧
    oppC5.total_cost ≤ 1000 := by
  have hopp : computeOpp 1000 [] "Jita" bestC5 [(30, 0), (32, 1), (31, 2)] buyRowC5
      = some oppC5 := by
    norm_num [computeOpp, bestC5, buyRowC5, oppC5, List.find?, List.lookup, tradeVol,
      tradeVol0, tradeCost, intTrunc, min_def]
    rfl
  have h := arbitrage_budget_sound 1000 [] "Jita" bestC5 [(30, 0), (32, 1), (31, 2)]
    [buyRowC5] (by decide) oppC5
    (by simp [computeOpportunities, List.filterMap_cons, hopp])
  exact ⟨h.1, h.2.1, h.2.2.1⟩

/-- The two-system jump graph of the C4 run. -/
def trDbC4 : MarketDb :=
  { systems := [{ system_id := 30, name := "Jita" }, { system_id := 31, name := "Amarr" }],
    jumps := [{ from_solar_system_id := 30, to_solar_system_id := 31 },
              { from_solar_system_id := 31, to_solar_system_id := 30 }],
    stations := [], orders := [], types := [] }

/-- C4 (code defect): the bounded-reachability phase never returns its
distance map — on any resolvable start system the first BFS iteration
executes `queue.pop(0)` on a `collections.deque` and raises `TypeError` —
here evaluated on a concrete two-system graph with start Jita and
`max_jumps = 2`. -/
theorem bfs_phase_raises_typeerror :
    find_trade_routes trDbC4 "Jita" 2 1000 5 = Except.error PyExc.typeError := rfl

/-- The start-system sell order of the C6 scenario: 100 units at price 10
in the Jita station. -/
def sellC6 : OrderRow :=
  { order_id := 1, type_id := 34, region_id := 7, price := 10, volume_remain := 100,
    is_buy_order := false, issued := 0, duration := 30, min_volume := 1,
    range := "region", location_id := 100, updated_at := 0 }

/-- The destination buy order of the C6 scenario: 50 units wanted at price
15 in the Amarr station, two jumps away. -/
def buyC6 : OrderRow :=
  { order_id := 2, type_id := 34, region_id := 7, price := 15, volume_remain := 50,
    is_buy_order := true, issued := 0, duration := 30, min_volume := 1,
    range := "region", location_id := 101, updated_at := 0 }

/-- The C6 scenario snapshot: Jita and Amarr two jumps apart via a middle
system, one sell order at Jita, one buy order at Amarr. -/
def trDbC6 : MarketDb :=
  { systems := [{ system_id := 30, name := "Jita" },
                { system_id := 32, name := "Niyabainen" },
                { system_id := 31, name := "Amarr" }],
    jumps := [{ from_solar_system_id := 30, to_solar_system_id := 32 },
              { from_solar_system_id := 32, to_solar_system_id := 30 },
              { from_solar_system_id := 32, to_solar_system_id := 31 },
              { from_solar_system_id := 31, to_solar_system_id := 32 }],
    stations := [{ station_id := 100, solar_system_id := 30, name := "Jita Trade Hub" },
                 { station_id := 101, solar_system_id := 31, name := "Amarr Trade Hub" }],
    orders := [sellC6, buyC6],
    types := [(34, "Tritanium")] }

/-- The distance map the BFS was meant to produce for the C6 graph. -/
def visitedC6 : List (Nat × Nat) := [(30, 0), (32, 1), (31, 2)]

/-- The buy-order join row of the C6 scenario. -/
def buyRowC6 : BuyRow :=
  { type_id := 34, price := 15, volume_remain := 50, sys_id := 31,
    station_name := "Amarr Trade Hub" }

/-- The opportunity the C6 scenario claims with budget 1000. -/
def oppC6a : Opportunity :=
  { item := "Tritanium", buy_from := "Jita", sell_to := "Amarr Trade Hub",
    buy_price := 10, sell_price := 15, quantity := 50, total_cost := 500,
    total_profit := 250, jumps := 2 }

/-- The opportunity the C6 scenario claims with budget 300. -/
def oppC6b : Opportunity :=
  { item := "Tritanium", buy_from := "Jita", sell_to := "Amarr Trade Hub",
    buy_price := 10, sell_price := 15, quantity := 30, total_cost := 300,
    total_profit := 150, jumps := 2 }

/-- C6 (code defect): on the concrete Jita/Amarr scenario `find_trade_routes`
raises `TypeError` in its BFS loop instead of returning the claimed
opportunity, with budget 1000 as well as 300; the downstream arbitrage scan,
fed with the distance map the BFS was meant to produce, computes exactly the
claimed values (quantity 50, total cost 500, total profit 250, 2 jumps;
resp. quantity 30, total cost 300, total profit 150). -/
theorem scenario_run_outcome :
    find_trade_routes trDbC6 "Jita" 2 1000 5 = Except.error PyExc.typeError ∧
    find_trade_routes trDbC6 "Jita" 2 300 5 = Except.error PyExc.typeError ∧
    computeOpportunities 1000 trDbC6.types "Jita"
        (bestSellPrices (sellOrdersAt trDbC6 30)) visitedC6
        (buyOrdersIn trDbC6 [30, 32, 31]) = [oppC6a] ∧
    computeOpportunities 300 trDbC6.types "Jita"
        (bestSellPrices (sellOrdersAt trDbC6 30)) visitedC6
        (buyOrdersIn trDbC6 [30, 32, 31]) = [oppC6b] := by
  have hbest : bestSellPrices (sellOrdersAt trDbC6 30) = [(34, 10, 100)] := by decide
  have hbuys : buyOrdersIn trDbC6 [30, 32, 31] = [buyRowC6] := by decide
  have hoppa : computeOpp 1000 trDbC6.types "Jita" [(34, 10, 100)] visitedC6 buyRowC6
      = some oppC6a := by
    norm_num [computeOpp, trDbC6, buyRowC6, oppC6a, visitedC6, List.find?, List.lookup,
      tradeVol, tradeVol0, tradeCost, intTrunc, min_def]
    rfl
  have hoppb : computeOpp 300 trDbC6.types "Jita" [(34, 10, 100)] visitedC6 buyRowC6
      = some oppC6b := by
    norm_num [computeOpp, trDbC6, buyRowC6, oppC6b, visitedC6, List.find?, List.lookup,
      tradeVol, tradeVol0, tradeCost, intTrunc, min_def]
    rfl
  refine ⟨rfl, rfl, ?_, ?_⟩
  · rw [hbest, hbuys]
    simp [computeOpportunities, List.filterMap_cons, hoppa]
  · rw [hbest, hbuys]
    simp [computeOpportunities, List.filterMap_cons, hoppb]

/-- A one-system universe with no market orders at all. -/
def trDbC7 : MarketDb :=
  { systems := [{ system_id := 30, name := "Jita" }],
    jumps := [], stations := [], orders := [], types := [] }

/-- C7 (code defect): an unknown start system does produce the explicit
error result without raising; but a known start system with no sell orders
raises `TypeError` in the BFS loop before the no-sell-orders check is ever
reached, instead of returning the claimed explicit error result. -/
theorem error_paths_run :
    find_trade_routes trDbC7 "Perimeter" 2 1000 5
        = Except.ok (TrOut.errorResult TrError.systemNotFound) ∧
    find_trade_routes trDbC7 "Jita" 2 1000 5 = Except.error PyExc.typeError :=
  ⟨rfl, rfl⟩
